import Mathlib

/-!
# Rusted Warfare Auto-Coder — verification of the core pipeline

Shallow embedding of the core of the repository
`Davicoderliner/Rusted-warfare-auto-coder-ai`:

* the local INI syntax validator `validateIni`,
* the unit-generation pipeline `generateUnit` / `generateUnitFromImage`
  (`src/services/geminiService.ts`), with the generative-model calls
  replaced by oracle parameters (the parsed model response, the corrector
  model, the image model),
* the Mod/Unit state transitions of the App component (`handleSendMessage`,
  `handleEditCode`, `handleUpdateModName`).

Strings are modelled as lists of characters (`Str`); a JS string split on
`'\n'` becomes `splitLines`, `String.prototype.trim` becomes `trim`, and the
two line regexes of the validator are modelled character by character.
-/

namespace RWAC

/-- A JS string, modelled as its list of characters. -/
abbrev Str := List Char

/-- Conversion from a Lean string literal. -/
def str (s : String) : Str := s.toList

/-- Whitespace as used by JS `String.prototype.trim` and the regex class
`\s` (ASCII fragment: space, tab, newline, carriage return, vertical tab,
form feed). -/
def isWs (c : Char) : Bool :=
  c = ' ' || c = '\t' || c = '\n' || c = '\r' || c = '\x0b' || c = '\x0c'

/-- JS `String.prototype.trim`: drop whitespace from both ends. -/
def trim (s : Str) : Str :=
  ((s.dropWhile isWs).reverse.dropWhile isWs).reverse

/-- A character of the identifier class `[a-zA-Z0-9_]` used by both line
patterns of the validator. -/
def isIdentChar (c : Char) : Bool := c.isAlphanum || c = '_'

/-- JS `String.prototype.toLowerCase` (ASCII; identifiers matched by the
patterns only contain ASCII). -/
def lower (s : Str) : Str := s.map Char.toLower

/-- JS `String.prototype.split('\n')`. -/
def splitLines : Str → List Str
  | [] => [[]]
  | c :: rest =>
    if c = '\n' then [] :: splitLines rest
    else
      match splitLines rest with
      | [] => [[c]]
      | l :: ls => (c :: l) :: ls

/-- The section-header pattern of `validateIni`
(`/^\s*\[\s*([a-zA-Z0-9_]+)\s*\]\s*$/` applied to the trimmed line);
returns the lowercased captured identifier on a match.  The whitespace,
identifier, `[` and `]` character classes are pairwise disjoint, so the
greedy regex is equivalent to this deterministic maximal-munch scan. -/
def matchSection (t : Str) : Option Str :=
  match t.dropWhile isWs with
  | '[' :: r1 =>
    let r2 := r1.dropWhile isWs
    let ident := r2.takeWhile isIdentChar
    if ident = [] then none
    else
      match (r2.dropWhile isIdentChar).dropWhile isWs with
      | ']' :: r5 => if r5.dropWhile isWs = [] then some (lower ident) else none
      | _ => none
  | _ => none

/-- The key/value pattern of `validateIni`
(`/^\s*([a-zA-Z0-9_]+)\s*:\s*(.+)$/` applied to the trimmed line); returns
the lowercased key and the captured value on a match.  On a trimmed line
the greedy `\s*(.+)$` tail matches exactly when the rest after the colon,
stripped of leading whitespace, is non-empty and free of line terminators
(`.` does not match `\r`), and then captures that rest. -/
def matchKV (t : Str) : Option (Str × Str) :=
  let r := t.dropWhile isWs
  let key := r.takeWhile isIdentChar
  if key = [] then none
  else
    match (r.dropWhile isIdentChar).dropWhile isWs with
    | ':' :: r2 =>
      let v := r2.dropWhile isWs
      if v = [] || v.any (fun c => c = '\n' || c = '\r') then none
      else some (lower key, v)
    | _ => none

/-- The outcome of `validateIni`: `none` models `{isValid: true}`, and each
constructor of `IniError` models one of the distinct error messages of the
source. -/
inductive IniError
  | emptyDoc
  | invalidLine (lineNo : Nat) (textOfLine : Str)
  | missingCoreSection
  | missingCoreName
  | missingGraphicsSection
  | missingGraphicsImage
deriving DecidableEq, Repr

def strCore : Str := str "core"
def strGraphics : Str := str "graphics"
def strName : Str := str "name"
def strImage : Str := str "image"

/-- The mutable scan state of `validateIni`'s loop. -/
structure ScanState where
  inCoreSection : Bool
  inGraphicsSection : Bool
  foundCoreName : Bool
  foundGraphicsImage : Bool
  currentSection : Str
deriving DecidableEq, Repr

def initState : ScanState := ⟨false, false, false, false, []⟩

/-- Effect of a section-header line on the scan state
(`currentSection = ...; if (currentSection === 'core') inCoreSection = true;`
and likewise for `graphics`). -/
def applySection (st : ScanState) (sec : Str) : ScanState :=
  { st with
    currentSection := sec
    inCoreSection := if sec = strCore then true else st.inCoreSection
    inGraphicsSection := if sec = strGraphics then true else st.inGraphicsSection }

/-- Effect of a key/value line on the scan state
(`if (currentSection === 'core' && key === 'name') foundCoreName = true;`
and likewise for `graphics`/`image`). -/
def applyKV (st : ScanState) (key : Str) : ScanState :=
  { st with
    foundCoreName :=
      if st.currentSection = strCore ∧ key = strName then true else st.foundCoreName
    foundGraphicsImage :=
      if st.currentSection = strGraphics ∧ key = strImage then true else st.foundGraphicsImage }

/-- The line loop of `validateIni`: skips blank and comment lines, applies
section headers and key/value lines to the state, and fails on the first
line matching neither pattern, with the 1-based line number and trimmed
offending text. -/
def scanLines (i : Nat) (st : ScanState) : List Str → Except (Nat × Str) ScanState
  | [] => .ok st
  | line :: rest =>
    if trim line = [] ∨ (trim line).head? = some '#' then
      scanLines (i + 1) st rest
    else
      match matchSection (trim line) with
      | some sec => scanLines (i + 1) (applySection st sec) rest
      | none =>
        match matchKV (trim line) with
        | none => .error (i + 1, trim line)
        | some kv => scanLines (i + 1) (applyKV st kv.1) rest

/-- The validator `validateIni` (types/validation module): empty-document check, the line
scan, then the four structural checks in order. -/
def validateIni (content : Str) : Option IniError :=
  if trim content = [] then some .emptyDoc
  else
    match scanLines 0 initState (splitLines content) with
    | .error e => some (.invalidLine e.1 e.2)
    | .ok st =>
      if st.inCoreSection = false then some .missingCoreSection
      else if st.foundCoreName = false then some .missingCoreName
      else if st.inGraphicsSection = false then some .missingGraphicsSection
      else if st.foundGraphicsImage = false then some .missingGraphicsImage
      else none

/-! ## Data model (types module) -/

/-- The `iniFile` field of a generated unit. -/
structure IniFile where
  name : Str
  content : Str
deriving DecidableEq, Repr

/-- One image or sound asset: a filename plus its encoded payload. -/
structure Asset where
  name : Str
  dataUrl : Str
deriving DecidableEq, Repr

/-- Record `GeneratedUnit` from the types module.  `sounds` is an optional field:
the create-from-text path always sets it (possibly to `[]`), the
create-from-image path leaves it absent (`none`). -/
structure GeneratedUnit where
  id : Str
  unitName : Str
  iniFile : IniFile
  images : List Asset
  sounds : Option (List Asset)
deriving DecidableEq, Repr

/-- Record `Mod` from the types module. -/
structure Mod where
  name : Str
  units : List GeneratedUnit
deriving DecidableEq, Repr

/-! ## The generation pipeline (`src/services/geminiService.ts`) -/

/-- One entry of the `imagePrompts` array of the model response. -/
structure ImagePrompt where
  imageName : Str
  prompt : Str
deriving DecidableEq, Repr

/-- The parsed JSON envelope of the create-from-text model response.  Each
field is optional because the raw model output may omit it; an absent field
is `none`. -/
structure UnitGenResponse where
  unitName : Option Str
  iniFileContent : Option Str
  imagePrompts : Option (List ImagePrompt)
  soundFileNames : Option (List Str)
deriving DecidableEq, Repr

/-- The parsed JSON envelope of the create-from-image model response. -/
structure ImageGenResponse where
  unitName : Option Str
  iniFileContent : Option Str
deriving DecidableEq, Repr

/-- The audio attachment optionally supplied by the caller. -/
structure AudioAttachment where
  dataUrl : Str
  mimeType : Str
deriving DecidableEq, Repr

inductive GenError
  | missingRequiredFields
deriving DecidableEq, Repr

/-- JS falsiness of an optional string field: absent or the empty string. -/
def falsyStr : Option Str → Bool
  | none => true
  | some s => s.isEmpty

/-- JS falsiness of an optional array field: only an absent field is falsy —
an empty array is truthy in JS. -/
def falsyArr {α : Type} : Option (List α) → Bool
  | none => true
  | some _ => false

/-- Function `generateUnit` (create-from-text), from the point where the model
response has been parsed.  The generative-model calls are replaced by
oracles: `parsedResponse` is the decoded envelope of the first model call,
`correctWithAI` stands for `validateAndCorrectIniWithAI` (a second model
call on the INI text and the existing unit names), `genImageBytes` stands
for the image model (prompt to image bytes), and `now` for `Date.now()`.
Mirrors the source: required-field check, optional corrector pass, one
image per `imagePrompts` entry named by its exact `imageName`, sound
fan-out of the single audio attachment, then the unit record. -/
def generateUnit (parsedResponse : UnitGenResponse) (audio : Option AudioAttachment)
    (existingUnitNames : List Str) (autoFix : Bool)
    (correctWithAI : Str → List Str → Str) (genImageBytes : Str → Str)
    (now : Str) : Except GenError GeneratedUnit :=
  if falsyStr parsedResponse.unitName || falsyStr parsedResponse.iniFileContent
      || falsyArr parsedResponse.imagePrompts then
    .error .missingRequiredFields
  else
    let unitName := parsedResponse.unitName.getD []
    let initialIni := parsedResponse.iniFileContent.getD []
    let correctedIni :=
      if autoFix then correctWithAI initialIni existingUnitNames else initialIni
    let images := (parsedResponse.imagePrompts.getD []).map fun p =>
      { name := p.imageName
        dataUrl := str "data:image/png;base64," ++ genImageBytes p.prompt : Asset }
    let sounds :=
      match parsedResponse.soundFileNames, audio with
      | some names, some a => names.map fun n => { name := n, dataUrl := a.dataUrl : Asset }
      | _, _ => []
    .ok
      { id := unitName ++ now
        unitName := unitName
        iniFile := { name := unitName ++ str ".ini", content := correctedIni }
        images := images
        sounds := some sounds }

/-- Function `generateUnitFromImage` (create-from-image), from the point where the
model response has been parsed.  No image synthesis: the single image is
the caller-supplied payload wrapped as a data URL under the name
`unitName + ".png"`; no sounds field is set. -/
def generateUnitFromImage (parsedResponse : ImageGenResponse)
    (base64ImageData : Str) (mimeType : Str) (autoFix : Bool)
    (correctWithAI : Str → List Str → Str) (now : Str) :
    Except GenError GeneratedUnit :=
  if falsyStr parsedResponse.unitName || falsyStr parsedResponse.iniFileContent then
    .error .missingRequiredFields
  else
    let unitName := parsedResponse.unitName.getD []
    let initialIni := parsedResponse.iniFileContent.getD []
    let correctedIni := if autoFix then correctWithAI initialIni [] else initialIni
    .ok
      { id := unitName ++ now
        unitName := unitName
        iniFile := { name := unitName ++ str ".ini", content := correctedIni }
        images := [{ name := unitName ++ str ".png"
                     dataUrl := str "data:" ++ mimeType ++ str ";base64," ++ base64ImageData }]
        sounds := none }

/-- Function `generateModName`, from the point where the model's raw text response is
available: `response.text.trim().replace(/[^a-zA-Z0-9_]/g, '')` — trim, then
delete every character outside `[a-zA-Z0-9_]`. -/
def generateModName (modelText : Str) : Str :=
  (trim modelText).filter isIdentChar

/-! ## Mod/Unit state transitions (App component) -/

def defaultModName : Str := str "MyRustedMod"

/-- The Mod-state effect of `handleSendMessage`: on a successful generation
append the unit (creating the Mod with its default name first if none
exists); on a failed generation the state is untouched (the error is only
rendered into the chat transcript). -/
def appendUnitResult (mod : Option Mod) (result : Except GenError GeneratedUnit) :
    Option Mod :=
  match result with
  | .error _ => mod
  | .ok u =>
    match mod with
    | none => some { name := defaultModName, units := [u] }
    | some m => some { m with units := m.units ++ [u] }

/-- The Mod-state effect of `handleEditCode` once the edited code is back
from the model: replace only the last unit, spreading the old unit record
with a new `iniFile.content` (`[...units.slice(0, -1), updatedUnit]`).  With
no units the handler returns before doing anything. -/
def handleEditCode (mod : Mod) (updatedCode : Str) : Mod :=
  match mod.units.getLast? with
  | none => mod
  | some latest =>
    { mod with
      units := mod.units.dropLast ++
        [{ latest with iniFile := { latest.iniFile with content := updatedCode } }] }

/-- The Mod-state effect of `handleUpdateModName` on a successful model
call: the sanitized model output is applied as the new name,
unconditionally. -/
def handleUpdateModName (mod : Mod) (modelText : Str) : Mod :=
  { mod with name := generateModName modelText }

/-! ## Spec-side observers -/

/-- A line the validator's scan skips: blank after trimming, or a comment. -/
def ignorableLine (line : Str) : Bool :=
  trim line = [] || (trim line).head? = some '#'

/-- A line the validator accepts: ignorable, or matching one of the two
line patterns. -/
def wellFormedLine (line : Str) : Bool :=
  ignorableLine line || (matchSection (trim line)).isSome || (matchKV (trim line)).isSome

/-- A well-formed document: every line is acceptable to the validator. -/
def wellFormed (content : Str) : Bool :=
  (splitLines content).all wellFormedLine

/-- The (lowercased) names of the section headers of a document's lines, in
order. -/
def sectionNames : List Str → List Str
  | [] => []
  | line :: rest =>
    if trim line = [] ∨ (trim line).head? = some '#' then sectionNames rest
    else
      match matchSection (trim line) with
      | some sec => sec :: sectionNames rest
      | none => sectionNames rest

/-- The (governing section, key) pairs of a document's key/value lines,
lowercased, starting from governing section `cur`. -/
def keysIn (cur : Str) : List Str → List (Str × Str)
  | [] => []
  | line :: rest =>
    if trim line = [] ∨ (trim line).head? = some '#' then keysIn cur rest
    else
      match matchSection (trim line) with
      | some sec => keysIn sec rest
      | none =>
        match matchKV (trim line) with
        | some kv => (cur, kv.1) :: keysIn cur rest
        | none => keysIn cur rest

/-- The value of the first `name` key governed by a `[core]` section, if
any, scanning from governing section `cur`. -/
def coreNameFrom (cur : Str) : List Str → Option Str
  | [] => none
  | line :: rest =>
    match matchSection (trim line) with
    | some sec => coreNameFrom sec rest
    | none =>
      match matchKV (trim line) with
      | some kv =>
        if cur = strCore ∧ kv.1 = strName then some kv.2 else coreNameFrom cur rest
      | none => coreNameFrom cur rest

/-- The value of the first `name` key inside `[core]` of a document. -/
def coreNameValue (content : Str) : Option Str :=
  coreNameFrom [] (splitLines content)

/-- Modelled from the spec: the image filenames referenced by the
document's "graphics/image-bearing keys" — the values of key/value lines
whose (lowercased) key starts with `image` (`image`, `image_turret`,
`image_wreak`, ...).  The source contains no such extractor; this observer
only states the closure property of §3 of the spec. -/
def imageRefs (content : Str) : List Str :=
  (splitLines content).filterMap fun line =>
    match matchKV (trim line) with
    | some kv => if kv.1.take strImage.length = strImage then some kv.2 else none
    | none => none

/-- The bidirectional image-filename closure of the spec (§3): every image
asset is referenced by an image-bearing key of the config text, and every
image filename referenced there has a matching asset. -/
def imageClosure (u : GeneratedUnit) : Bool :=
  u.images.all (fun img => (imageRefs u.iniFile.content).any (fun r => r = img.name)) &&
  (imageRefs u.iniFile.content).all (fun r => u.images.any (fun img => img.name = r))

/-- Modelled from the spec: the folder-safe mod-name pattern — letters and
digits only starting with an uppercase letter, or snake_case. -/
def folderSafe (s : Str) : Bool :=
  match s with
  | [] => false
  | c :: _ =>
    (c.isUpper && s.all Char.isAlphanum) ||
    s.all fun x => x.isLower || x.isDigit || x = '_'


/-! ## Validator proofs -/
/-- Proof-side replay of the validator's scan, without the error exit:
the state after processing all lines. -/
def finalState (st : ScanState) : List Str → ScanState
  | [] => st
  | line :: rest =>
    if trim line = [] ∨ (trim line).head? = some '#' then finalState st rest
    else
      match matchSection (trim line) with
      | some sec => finalState (applySection st sec) rest
      | none =>
        match matchKV (trim line) with
        | some kv => finalState (applyKV st kv.1) rest
        | none => finalState st rest

theorem dropWhileWs_eq_nil_iff (l : Str) :
    l.dropWhile isWs = [] ↔ ∀ c ∈ l, isWs c = true := by
  induction l with
  | nil => simp [List.dropWhile]
  | cons c rest ih =>
    by_cases h : isWs c
    · simp [List.dropWhile, h, ih]
    · simp [List.dropWhile, h]

theorem trim_eq_nil_iff (s : Str) : trim s = [] ↔ ∀ c ∈ s, isWs c = true := by
  unfold trim
  rw [List.reverse_eq_nil_iff, dropWhileWs_eq_nil_iff]
  constructor
  · intro h c hc
    by_cases hw : isWs c
    · exact hw
    · exfalso
      have hs := List.takeWhile_append_dropWhile (p := isWs) (l := s)
      rw [← hs] at hc
      rcases List.mem_append.mp hc with h1 | h1
      · exact hw (List.mem_takeWhile_imp h1)
      · exact hw (h c (List.mem_reverse.mpr h1))
  · intro h c hc
    exact h c ((List.dropWhile_sublist (p := isWs) (l := s)).subset (List.mem_reverse.mp hc))

theorem splitLines_ne_nil (s : Str) : splitLines s ≠ [] := by
  induction s with
  | nil => simp [splitLines]
  | cons c rest ih =>
    by_cases h : c = '\n'
    · simp [splitLines, h]
    · simp only [splitLines, if_neg h]
      cases hs : splitLines rest with
      | nil => simp
      | cons l ls => simp

theorem mem_of_mem_splitLines {s l : Str} {c : Char}
    (hl : l ∈ splitLines s) (hc : c ∈ l) : c ∈ s := by
  induction s generalizing l with
  | nil =>
    simp [splitLines] at hl
    subst hl
    exact absurd hc (List.not_mem_nil c)
  | cons d rest ih =>
    by_cases h : d = '\n'
    · simp only [splitLines, if_pos h] at hl
      rcases List.mem_cons.mp hl with h1 | h1
      · subst h1; exact absurd hc (List.not_mem_nil c)
      · exact List.mem_cons_of_mem d (ih h1 hc)
    · simp only [splitLines, if_neg h] at hl
      cases hs : splitLines rest with
      | nil => exact absurd hs (splitLines_ne_nil rest)
      | cons l0 ls =>
        rw [hs] at hl
        rcases List.mem_cons.mp hl with h1 | h1
        · subst h1
          rcases List.mem_cons.mp hc with h2 | h2
          · exact h2 ▸ List.mem_cons_self d rest
          · exact List.mem_cons_of_mem d (ih (hs ▸ List.mem_cons_self l0 ls) h2)
        · exact List.mem_cons_of_mem d (ih (hs ▸ List.mem_cons_of_mem l0 h1) hc)

theorem matchSection_eq_none_of_skip {t : Str}
    (h : t = [] ∨ t.head? = some '#') : matchSection t = none := by
  rcases h with h | h
  · subst h; rfl
  · cases t with
    | nil => rfl
    | cons c r =>
      simp only [List.head?] at h
      have hc : c = '#' := by injection h
      subst hc
      simp [matchSection, List.dropWhile, isWs]

theorem matchKV_eq_none_of_skip {t : Str}
    (h : t = [] ∨ t.head? = some '#') : matchKV t = none := by
  rcases h with h | h
  · subst h; rfl
  · cases t with
    | nil => rfl
    | cons c r =>
      simp only [List.head?] at h
      have hc : c = '#' := by injection h
      subst hc
      simp [matchKV, List.dropWhile, List.takeWhile, isWs, isIdentChar, Char.isAlphanum,
        Char.isAlpha, Char.isDigit, Char.isUpper, Char.isLower]

theorem scanLines_eq_ok (lines : List Str)
    (h : ∀ l ∈ lines, wellFormedLine l = true) (i : Nat) (st : ScanState) :
    scanLines i st lines = .ok (finalState st lines) := by
  induction lines generalizing i st with
  | nil => rfl
  | cons line rest ih =>
    have hrest : ∀ l ∈ rest, wellFormedLine l = true :=
      fun l hl => h l (List.mem_cons_of_mem line hl)
    by_cases hsk : trim line = [] ∨ (trim line).head? = some '#'
    · simp only [scanLines, finalState, if_pos hsk]
      exact ih hrest (i + 1) st
    · simp only [scanLines, finalState, if_neg hsk]
      cases hsec : matchSection (trim line) with
      | some sec => exact ih hrest (i + 1) (applySection st sec)
      | none =>
        cases hkv : matchKV (trim line) with
        | some kv => exact ih hrest (i + 1) (applyKV st kv.1)
        | none =>
          exfalso
          have hw := h line (List.mem_cons_self line rest)
          unfold wellFormedLine ignorableLine at hw
          rw [hsec, hkv] at hw
          simp at hw
          rcases hw with hw | hw
          · exact hsk (Or.inl hw)
          · exact hsk (Or.inr hw)
theorem finalState_inCore (lines : List Str) (st : ScanState) :
    (finalState st lines).inCoreSection = true ↔
      st.inCoreSection = true ∨ strCore ∈ sectionNames lines := by
  induction lines generalizing st with
  | nil => simp [finalState, sectionNames]
  | cons line rest ih =>
    by_cases hsk : trim line = [] ∨ (trim line).head? = some '#'
    · simp only [finalState, sectionNames, if_pos hsk]
      exact ih st
    · simp only [finalState, sectionNames, if_neg hsk]
      cases hsec : matchSection (trim line) with
      | some sec =>
        rw [ih (applySection st sec)]
        by_cases hc : sec = strCore
        · simp [applySection, hc]
        · simp [applySection, hc, Ne.symm hc]
      | none =>
        cases hkv : matchKV (trim line) with
        | some kv =>
          rw [ih (applyKV st kv.1)]
          simp [applyKV]
        | none => exact ih st

theorem finalState_inGraphics (lines : List Str) (st : ScanState) :
    (finalState st lines).inGraphicsSection = true ↔
      st.inGraphicsSection = true ∨ strGraphics ∈ sectionNames lines := by
  induction lines generalizing st with
  | nil => simp [finalState, sectionNames]
  | cons line rest ih =>
    by_cases hsk : trim line = [] ∨ (trim line).head? = some '#'
    · simp only [finalState, sectionNames, if_pos hsk]
      exact ih st
    · simp only [finalState, sectionNames, if_neg hsk]
      cases hsec : matchSection (trim line) with
      | some sec =>
        rw [ih (applySection st sec)]
        by_cases hc : sec = strGraphics
        · simp [applySection, hc]
        · simp [applySection, hc, Ne.symm hc]
      | none =>
        cases hkv : matchKV (trim line) with
        | some kv =>
          rw [ih (applyKV st kv.1)]
          simp [applyKV]
        | none => exact ih st

theorem finalState_foundCoreName (lines : List Str) (st : ScanState) :
    (finalState st lines).foundCoreName = true ↔
      st.foundCoreName = true ∨ (strCore, strName) ∈ keysIn st.currentSection lines := by
  induction lines generalizing st with
  | nil => simp [finalState, keysIn]
  | cons line rest ih =>
    by_cases hsk : trim line = [] ∨ (trim line).head? = some '#'
    · simp only [finalState, keysIn, if_pos hsk]
      exact ih st
    · simp only [finalState, keysIn, if_neg hsk]
      cases hsec : matchSection (trim line) with
      | some sec =>
        rw [ih (applySection st sec)]
        simp [applySection]
      | none =>
        cases hkv : matchKV (trim line) with
        | some kv =>
          rw [ih (applyKV st kv.1)]
          by_cases hck : st.currentSection = strCore ∧ kv.1 = strName
          · simp [applyKV, hck, Prod.ext_iff, hck.1, hck.2]
          · simp only [applyKV, if_neg hck, List.mem_cons, Prod.mk.injEq]
            constructor
            · rintro (h | h)
              · exact Or.inl h
              · exact Or.inr (Or.inr h)
            · rintro (h | ⟨h1, h2⟩ | h)
              · exact Or.inl h
              · exact absurd ⟨h1.symm, h2.symm⟩ hck
              · exact Or.inr h
        | none => exact ih st

theorem finalState_foundGraphicsImage (lines : List Str) (st : ScanState) :
    (finalState st lines).foundGraphicsImage = true ↔
      st.foundGraphicsImage = true ∨ (strGraphics, strImage) ∈ keysIn st.currentSection lines := by
  induction lines generalizing st with
  | nil => simp [finalState, keysIn]
  | cons line rest ih =>
    by_cases hsk : trim line = [] ∨ (trim line).head? = some '#'
    · simp only [finalState, keysIn, if_pos hsk]
      exact ih st
    · simp only [finalState, keysIn, if_neg hsk]
      cases hsec : matchSection (trim line) with
      | some sec =>
        rw [ih (applySection st sec)]
        simp [applySection]
      | none =>
        cases hkv : matchKV (trim line) with
        | some kv =>
          rw [ih (applyKV st kv.1)]
          by_cases hck : st.currentSection = strGraphics ∧ kv.1 = strImage
          · simp [applyKV, hck, Prod.ext_iff, hck.1, hck.2]
          · simp only [applyKV, if_neg hck, List.mem_cons, Prod.mk.injEq]
            constructor
            · rintro (h | h)
              · exact Or.inl h
              · exact Or.inr (Or.inr h)
            · rintro (h | ⟨h1, h2⟩ | h)
              · exact Or.inl h
              · exact absurd ⟨h1.symm, h2.symm⟩ hck
              · exact Or.inr h
        | none => exact ih st
theorem keysIn_section {sec k cur : Str} {lines : List Str}
    (h : (sec, k) ∈ keysIn cur lines) : sec = cur ∨ sec ∈ sectionNames lines := by
  induction lines generalizing cur with
  | nil => simp [keysIn] at h
  | cons line rest ih =>
    by_cases hsk : trim line = [] ∨ (trim line).head? = some '#'
    · simp only [keysIn, if_pos hsk] at h
      simp only [sectionNames, if_pos hsk]
      exact ih h
    · simp only [keysIn, if_neg hsk] at h
      simp only [sectionNames, if_neg hsk]
      cases hsec : matchSection (trim line) with
      | some s =>
        rw [hsec] at h
        rcases ih h with h1 | h1
        · exact Or.inr (h1 ▸ List.mem_cons_self s _)
        · exact Or.inr (List.mem_cons_of_mem s h1)
      | none =>
        rw [hsec] at h
        cases hkv : matchKV (trim line) with
        | some kv =>
          rw [hkv] at h
          rcases List.mem_cons.mp h with h1 | h1
          · exact Or.inl (congrArg Prod.fst h1)
          · exact ih h1
        | none =>
          rw [hkv] at h
          exact ih h

theorem exists_line_of_mem_keysIn {p : Str × Str} {cur : Str} {lines : List Str}
    (h : p ∈ keysIn cur lines) :
    ∃ l ∈ lines, ¬(trim l = [] ∨ (trim l).head? = some '#') := by
  induction lines generalizing cur with
  | nil => simp [keysIn] at h
  | cons line rest ih =>
    by_cases hsk : trim line = [] ∨ (trim line).head? = some '#'
    · simp only [keysIn, if_pos hsk] at h
      obtain ⟨l, hl, hnl⟩ := ih h
      exact ⟨l, List.mem_cons_of_mem line hl, hnl⟩
    · exact ⟨line, List.mem_cons_self line rest, hsk⟩

theorem trim_content_ne_nil {content l : Str}
    (hl : l ∈ splitLines content) (h : trim l ≠ []) : trim content ≠ [] := by
  intro hc
  apply h
  rw [trim_eq_nil_iff] at hc ⊢
  exact fun c hcl => hc c (mem_of_mem_splitLines hl hcl)

theorem scanLines_first_bad (lines : List Str) (i : Nat)
    (hi : i < lines.length)
    (hbad : wellFormedLine (lines.getD i []) = false)
    (hfirst : ∀ k, k < i → wellFormedLine (lines.getD k []) = true) :
    ∀ j st, scanLines j st lines = .error (j + i + 1, trim (lines.getD i [])) := by
  induction lines generalizing i with
  | nil => exact absurd hi (Nat.not_lt_zero i)
  | cons line rest ih =>
    intro j st
    cases i with
    | zero =>
      simp only [List.getD_cons_zero] at hbad ⊢
      have hsk : ¬(trim line = [] ∨ (trim line).head? = some '#') := by
        intro hc
        unfold wellFormedLine ignorableLine at hbad
        rcases hc with hc | hc <;> simp [hc] at hbad
      have hsec : matchSection (trim line) = none := by
        rcases hms : matchSection (trim line) with _ | s
        · rfl
        · unfold wellFormedLine at hbad
          rw [hms] at hbad
          simp at hbad
      have hkv : matchKV (trim line) = none := by
        rcases hms : matchKV (trim line) with _ | s
        · rfl
        · unfold wellFormedLine at hbad
          rw [hms] at hbad
          simp at hbad
      simp [scanLines, if_neg hsk, hsec, hkv]
    | succ n =>
      have hn : n < rest.length := by
        simpa using Nat.lt_of_succ_lt_succ hi
      have hbad' : wellFormedLine (rest.getD n []) = false := by
        simpa using hbad
      have hfirst' : ∀ k, k < n → wellFormedLine (rest.getD k []) = true := by
        intro k hk
        simpa using hfirst (k + 1) (Nat.succ_lt_succ hk)
      have hline : wellFormedLine line = true := by
        simpa using hfirst 0 (Nat.succ_pos n)
      rw [List.getD_cons_succ, show j + (n + 1) + 1 = (j + 1) + n + 1 from by omega]
      by_cases hsk : trim line = [] ∨ (trim line).head? = some '#'
      · simp only [scanLines, if_pos hsk]
        exact ih n hn hbad' hfirst' (j + 1) st
      · simp only [scanLines, if_neg hsk]
        cases hsec : matchSection (trim line) with
        | some sec => exact ih n hn hbad' hfirst' (j + 1) (applySection st sec)
        | none =>
          cases hkv : matchKV (trim line) with
          | some kv => exact ih n hn hbad' hfirst' (j + 1) (applyKV st kv.1)
          | none =>
            exfalso
            unfold wellFormedLine ignorableLine at hline
            rw [hsec, hkv] at hline
            simp at hline
            exact hsk (hline.imp id id)

/-! ## Claims about the validator (C3, C4, C5) -/
/-- C3: for every well-formed document (each non-blank, non-comment line is
a valid section header or key/value pair) that contains a `[core]` section
with a `name` key and a `[graphics]` section with an `image` key,
`validateIni` returns valid. -/
theorem validateIni_accepts_wellFormed_core_graphics (content : Str)
    (hwf : wellFormed content = true)
    (hcore : (strCore, strName) ∈ keysIn [] (splitLines content))
    (hgfx : (strGraphics, strImage) ∈ keysIn [] (splitLines content)) :
    validateIni content = none := by
  obtain ⟨l, hl, hnsk⟩ := exists_line_of_mem_keysIn hcore
  have hne : trim content ≠ [] :=
    trim_content_ne_nil hl (fun hc => hnsk (Or.inl hc))
  have hall : ∀ l ∈ splitLines content, wellFormedLine l = true := by
    intro l hl
    exact List.all_eq_true.mp hwf l hl
  unfold validateIni
  rw [if_neg hne, scanLines_eq_ok _ hall 0 initState]
  have h1 : (finalState initState (splitLines content)).inCoreSection = true := by
    rw [finalState_inCore]
    refine Or.inr ?_
    rcases keysIn_section hcore with h | h
    · exact absurd h (by decide)
    · exact h
  have h2 : (finalState initState (splitLines content)).inGraphicsSection = true := by
    rw [finalState_inGraphics]
    refine Or.inr ?_
    rcases keysIn_section hgfx with h | h
    · exact absurd h (by decide)
    · exact h
  have h3 : (finalState initState (splitLines content)).foundCoreName = true := by
    rw [finalState_foundCoreName]
    exact Or.inr hcore
  have h4 : (finalState initState (splitLines content)).foundGraphicsImage = true := by
    rw [finalState_foundGraphicsImage]
    exact Or.inr hgfx
  simp [h1, h2, h3, h4]

def c3doc : Str := str "[core]\nname: a\n[graphics]\nimage: a.png"

theorem validateIni_accepts_wellFormed_core_graphics_witness :
    wellFormed c3doc = true ∧
    (strCore, strName) ∈ keysIn [] (splitLines c3doc) ∧
    (strGraphics, strImage) ∈ keysIn [] (splitLines c3doc) ∧
    validateIni c3doc = none :=
  ⟨by decide, by decide, by decide,
    validateIni_accepts_wellFormed_core_graphics c3doc (by decide) (by decide) (by decide)⟩

/-- C4 counterexample: the document `???` contains no `[core]` section, yet
`validateIni` reports a generic syntax error for line 1, not the specific
missing-`[core]`-section error. -/
theorem validateIni_missing_core_claim_false :
    strCore ∉ sectionNames (splitLines (str "???")) ∧
    validateIni (str "???") = some (.invalidLine 1 (str "???")) := by
  constructor
  · decide
  · decide

/-- C4 (amended): for every non-empty, well-formed document that contains
no `[core]` section, `validateIni` returns the specific
missing-`[core]`-section error. -/
theorem validateIni_missing_core_of_wellFormed (content : Str)
    (hne : trim content ≠ [])
    (hwf : wellFormed content = true)
    (hnc : strCore ∉ sectionNames (splitLines content)) :
    validateIni content = some .missingCoreSection := by
  have hall : ∀ l ∈ splitLines content, wellFormedLine l = true := by
    intro l hl
    exact List.all_eq_true.mp hwf l hl
  unfold validateIni
  rw [if_neg hne, scanLines_eq_ok _ hall 0 initState]
  have h1 : (finalState initState (splitLines content)).inCoreSection = false := by
    rw [Bool.eq_false_iff]
    intro hc
    rcases (finalState_inCore _ _).mp hc with h | h
    · exact absurd h (by decide)
    · exact hnc h
  simp [h1]

theorem validateIni_missing_core_of_wellFormed_witness :
    trim (str "x: 1") ≠ [] ∧ wellFormed (str "x: 1") = true ∧
    strCore ∉ sectionNames (splitLines (str "x: 1")) ∧
    validateIni (str "x: 1") = some .missingCoreSection :=
  ⟨by decide, by decide, by decide,
    validateIni_missing_core_of_wellFormed (str "x: 1") (by decide) (by decide) (by decide)⟩

/-- C5: for every document whose first ill-formed line (non-blank,
non-comment, matching neither the section-header nor the key/value
pattern) sits at 0-based index `i`, `validateIni` reports the syntax error
of exactly that line, citing its 1-based index `i + 1` — later lines,
well-formed or not, are irrelevant. -/
theorem validateIni_reports_first_invalid_line (content : Str) (i : Nat)
    (hi : i < (splitLines content).length)
    (hbad : wellFormedLine ((splitLines content).getD i []) = false)
    (hfirst : ∀ k, k < i → wellFormedLine ((splitLines content).getD k []) = true) :
    validateIni content =
      some (.invalidLine (i + 1) (trim ((splitLines content).getD i []))) := by
  have hmem : (splitLines content).getD i [] ∈ splitLines content := by
    rw [List.getD_eq_getElem _ _ hi]
    exact List.getElem_mem hi
  have htl : trim ((splitLines content).getD i []) ≠ [] := by
    intro hc
    unfold wellFormedLine ignorableLine at hbad
    rw [hc] at hbad
    simp at hbad
  have hne : trim content ≠ [] := trim_content_ne_nil hmem htl
  unfold validateIni
  rw [if_neg hne, scanLines_first_bad _ i hi hbad hfirst 0 initState]
  simp

def c5doc : Str := str "[core]name: x"

theorem validateIni_reports_first_invalid_line_witness :
    0 < (splitLines c5doc).length ∧
    wellFormedLine ((splitLines c5doc).getD 0 []) = false ∧
    (∀ k, k < 0 → wellFormedLine ((splitLines c5doc).getD k []) = true) ∧
    validateIni c5doc = some (.invalidLine 1 (str "[core]name: x")) := by
  refine ⟨by decide, by decide, fun k hk => absurd hk (Nat.not_lt_zero k), ?_⟩
  simpa using validateIni_reports_first_invalid_line c5doc 0 (by decide) (by decide)
    (fun k hk => absurd hk (Nat.not_lt_zero k))

/-! ## Claims about the generation pipeline and state transitions -/
/-- C1 counterexample: an accepted create-from-text model response whose
declared image filename `foo.png` is never referenced by the config text
`x` still yields a unit — the pipeline enforces no image-filename closure. -/
def c1resp : UnitGenResponse :=
  ⟨some (str "a"), some (str "x"), some [⟨str "foo.png", str "p"⟩], none⟩

theorem generateUnit_image_closure_claim_false :
    (generateUnit c1resp none [] false (fun i _ => i) (fun _ => []) []).toOption.map
      imageClosure = some false := by
  rfl

/-- C1 (amended): the create-from-text pipeline copies the model's declared
image filenames verbatim — the unit's `images` list carries exactly the
`imageName`s of the response's `imagePrompts`, with no cross-check against
`iniFile.content`; the closure invariant holds only when the model response
itself satisfies it. -/
theorem generateUnit_images_eq_declared (resp : UnitGenResponse)
    (audio : Option AudioAttachment) (existing : List Str) (autoFix : Bool)
    (correct : Str → List Str → Str) (gen : Str → Str) (now : Str)
    (prompts : List ImagePrompt) (hp : resp.imagePrompts = some prompts)
    (u : GeneratedUnit)
    (h : generateUnit resp audio existing autoFix correct gen now = .ok u) :
    u.images.map Asset.name = prompts.map ImagePrompt.imageName := by
  unfold generateUnit at h
  split at h
  · exact absurd h (by simp)
  · dsimp only at h
    injection h with h
    subst h
    simp [hp, List.map_map]

def c1unit : GeneratedUnit :=
  ⟨str "a", str "a", ⟨str "a.ini", str "x"⟩,
    [⟨str "foo.png", str "data:image/png;base64,"⟩], some []⟩

theorem generateUnit_images_eq_declared_witness :
    c1resp.imagePrompts = some [⟨str "foo.png", str "p"⟩] ∧
    generateUnit c1resp none [] false (fun i _ => i) (fun _ => []) [] = .ok c1unit ∧
    c1unit.images.map Asset.name =
      ([⟨str "foo.png", str "p"⟩] : List ImagePrompt).map ImagePrompt.imageName :=
  ⟨rfl, rfl,
    generateUnit_images_eq_declared c1resp none [] false (fun i _ => i) (fun _ => []) []
      [⟨str "foo.png", str "p"⟩] rfl c1unit rfl⟩

/-- C2 counterexample: an accepted response with `unitName` `a` whose config
text declares `name: b` under `[core]` is packaged verbatim (auto-fix off):
the produced unit's `[core]` `name` is `b`, not the unit's `unitName` `a` —
no deterministic identifier reconciler runs. -/
def c2resp : UnitGenResponse :=
  ⟨some (str "a"), some (str "[core]\nname: b"), some [], none⟩

theorem generateUnit_core_name_claim_false :
    (generateUnit c2resp none [] false (fun i _ => i) (fun _ => []) []).toOption.map
      (fun u => (u.unitName, coreNameValue u.iniFile.content)) =
      some (str "a", some (str "b")) ∧
    some (str "b") ≠ some (str "a") := by
  constructor
  · rfl
  · decide

/-- C2 (amended): no identifier-reconciliation step exists in the code. The
produced unit's config text is the model-provided text verbatim when
auto-fix is disabled, and the corrector model's raw output when enabled;
in neither case is the `[core]` `name` key deterministically forced to the
unit's `unitName`. -/
theorem generateUnit_no_reconciler (resp : UnitGenResponse)
    (audio : Option AudioAttachment) (existing : List Str)
    (correct : Str → List Str → Str) (gen : Str → Str) (now : Str)
    (ini : Str) (hi : resp.iniFileContent = some ini) :
    (∀ u, generateUnit resp audio existing false correct gen now = .ok u →
      u.iniFile.content = ini) ∧
    (∀ u, generateUnit resp audio existing true correct gen now = .ok u →
      u.iniFile.content = correct ini existing) := by
  constructor <;>
  · intro u h
    unfold generateUnit at h
    split at h
    · exact absurd h (by simp)
    · dsimp only at h
      injection h with h
      subst h
      simp [hi]

theorem generateUnit_no_reconciler_witness :
    c2resp.iniFileContent = some (str "[core]\nname: b") ∧
    (∀ u, generateUnit c2resp none [] false (fun i _ => i) (fun _ => []) [] = .ok u →
      u.iniFile.content = str "[core]\nname: b") :=
  ⟨rfl,
    (generateUnit_no_reconciler c2resp none [] (fun i _ => i) (fun _ => []) []
      (str "[core]\nname: b") rfl).1⟩

/-- C6: a model response missing any required envelope field (`unitName`,
the config text, or — for create-from-text — the image-description list)
makes the generation operation fail with the missing-fields error, and the
Mod/Unit state is left unchanged: nothing is appended and an existing Mod
is not modified.  Stated for both generation operations. -/
theorem generation_missing_fields_leaves_state (resp : UnitGenResponse)
    (resp2 : ImageGenResponse) (audio : Option AudioAttachment)
    (existing : List Str) (autoFix : Bool) (correct : Str → List Str → Str)
    (gen : Str → Str) (now : Str) (base64 mime : Str) (mod : Option Mod)
    (h : resp.unitName = none ∨ resp.iniFileContent = none ∨ resp.imagePrompts = none)
    (h2 : resp2.unitName = none ∨ resp2.iniFileContent = none) :
    generateUnit resp audio existing autoFix correct gen now =
      .error .missingRequiredFields ∧
    appendUnitResult mod (generateUnit resp audio existing autoFix correct gen now) = mod ∧
    generateUnitFromImage resp2 base64 mime autoFix correct now =
      .error .missingRequiredFields ∧
    appendUnitResult mod (generateUnitFromImage resp2 base64 mime autoFix correct now) = mod := by
  have hf : (falsyStr resp.unitName || falsyStr resp.iniFileContent
      || falsyArr resp.imagePrompts) = true := by
    rcases h with h | h | h <;> simp [falsyStr, falsyArr, h]
  have hf2 : (falsyStr resp2.unitName || falsyStr resp2.iniFileContent) = true := by
    rcases h2 with h2 | h2 <;> simp [falsyStr, h2]
  have e1 : generateUnit resp audio existing autoFix correct gen now =
      .error .missingRequiredFields := by
    unfold generateUnit
    rw [if_pos hf]
  have e2 : generateUnitFromImage resp2 base64 mime autoFix correct now =
      .error .missingRequiredFields := by
    unfold generateUnitFromImage
    rw [if_pos hf2]
  refine ⟨e1, ?_, e2, ?_⟩
  · rw [e1]; rfl
  · rw [e2]; rfl

theorem generation_missing_fields_leaves_state_witness :
    (⟨none, some (str "x"), some [], none⟩ : UnitGenResponse).unitName = none ∧
    (⟨none, some (str "x")⟩ : ImageGenResponse).unitName = none ∧
    appendUnitResult (some ⟨str "M", []⟩)
      (generateUnit ⟨none, some (str "x"), some [], none⟩ none [] false
        (fun i _ => i) (fun _ => []) []) = some ⟨str "M", []⟩ :=
  ⟨rfl, rfl,
    (generation_missing_fields_leaves_state ⟨none, some (str "x"), some [], none⟩
      ⟨none, some (str "x")⟩ none [] false (fun i _ => i) (fun _ => []) [] [] []
      (some ⟨str "M", []⟩) (Or.inl rfl) (Or.inl rfl)).2.1⟩
/-- C7: on a Mod with at least one unit, the edit operation rewrites only
the last unit's `iniFile.content`; every earlier unit (the `dropLast`
prefix) is byte-for-byte unchanged, the Mod's name is untouched, and the
edited unit keeps its `images`, `sounds`, id, unit name and file name. -/
theorem handleEditCode_replaces_only_last (mod : Mod) (h : mod.units ≠ [])
    (code : Str) :
    ∃ last updated,
      mod.units.getLast? = some last ∧
      updated.iniFile.content = code ∧
      updated.iniFile.name = last.iniFile.name ∧
      updated.images = last.images ∧
      updated.sounds = last.sounds ∧
      updated.unitName = last.unitName ∧
      updated.id = last.id ∧
      handleEditCode mod code = { mod with units := mod.units.dropLast ++ [updated] } ∧
      (∀ i, i + 1 < mod.units.length →
        (handleEditCode mod code).units[i]? = mod.units[i]?) := by
  cases hl : mod.units.getLast? with
  | none => exact absurd (List.getLast?_eq_none_iff.mp hl) h
  | some last =>
    refine ⟨last, { last with iniFile := { last.iniFile with content := code } },
      rfl, rfl, rfl, rfl, rfl, rfl, rfl, ?_, ?_⟩
    · unfold handleEditCode
      rw [hl]
    · intro i hi
      have hlen : i < mod.units.dropLast.length := by
        rw [List.length_dropLast]
        omega
      have hlast : last = mod.units.getLast h := by
        rw [List.getLast?_eq_getLast _ h] at hl
        exact (Option.some.injEq _ _).mp hl.symm
      have hsplit : mod.units.dropLast ++ [last] = mod.units := by
        rw [hlast]
        exact List.dropLast_append_getLast h
      unfold handleEditCode
      rw [hl]
      dsimp only
      rw [List.getElem?_append_left hlen]
      conv_rhs => rw [← hsplit]
      rw [List.getElem?_append_left hlen]

def c7unitA : GeneratedUnit :=
  ⟨str "a1", str "a", ⟨str "a.ini", str "[core]"⟩, [], some []⟩

def c7unitB : GeneratedUnit :=
  ⟨str "b1", str "b", ⟨str "b.ini", str "[core]"⟩, [⟨str "b.png", str "d"⟩], none⟩

def c7mod : Mod := ⟨str "MyRustedMod", [c7unitA, c7unitB]⟩

theorem handleEditCode_replaces_only_last_witness :
    c7mod.units ≠ [] ∧
    (∃ last updated,
      c7mod.units.getLast? = some last ∧
      updated.iniFile.content = str "new" ∧
      updated.iniFile.name = last.iniFile.name ∧
      updated.images = last.images ∧
      updated.sounds = last.sounds ∧
      updated.unitName = last.unitName ∧
      updated.id = last.id ∧
      handleEditCode c7mod (str "new") =
        { c7mod with units := c7mod.units.dropLast ++ [updated] } ∧
      (∀ i, i + 1 < c7mod.units.length →
        (handleEditCode c7mod (str "new")).units[i]? = c7mod.units[i]?)) :=
  ⟨by decide, handleEditCode_replaces_only_last c7mod (by decide) (str "new")⟩

/-- C8: in an accepted create-from-text response declaring sound filenames,
when the caller supplied an audio attachment every declared filename is
mapped to that same attachment's payload (fan-out duplication), and when no
audio attachment was supplied the produced unit's sound list is empty. -/
theorem generateUnit_sound_fanout (resp : UnitGenResponse)
    (existing : List Str) (autoFix : Bool) (correct : Str → List Str → Str)
    (gen : Str → Str) (now : Str) (names : List Str)
    (hacc : (falsyStr resp.unitName || falsyStr resp.iniFileContent
      || falsyArr resp.imagePrompts) = false)
    (hs : resp.soundFileNames = some names) (_hne : names ≠ [])
    (a : AudioAttachment) :
    (generateUnit resp (some a) existing autoFix correct gen now).toOption.map
      GeneratedUnit.sounds =
      some (some (names.map fun n => { name := n, dataUrl := a.dataUrl })) ∧
    (generateUnit resp none existing autoFix correct gen now).toOption.map
      GeneratedUnit.sounds = some (some []) := by
  constructor <;>
  · unfold generateUnit
    rw [if_neg (by rw [hacc]; exact Bool.false_ne_true)]
    simp [hs, Except.toOption]

def c8resp : UnitGenResponse :=
  ⟨some (str "a"), some (str "x"), some [], some [str "s1.mp3", str "s2.mp3"]⟩

theorem generateUnit_sound_fanout_witness :
    (falsyStr c8resp.unitName || falsyStr c8resp.iniFileContent
      || falsyArr c8resp.imagePrompts) = false ∧
    c8resp.soundFileNames = some [str "s1.mp3", str "s2.mp3"] ∧
    ([str "s1.mp3", str "s2.mp3"] : List Str) ≠ [] ∧
    (generateUnit c8resp (some ⟨str "dataA", str "audio/mp3"⟩) [] false
      (fun i _ => i) (fun _ => []) []).toOption.map GeneratedUnit.sounds =
      some (some [⟨str "s1.mp3", str "dataA"⟩, ⟨str "s2.mp3", str "dataA"⟩]) := by
  refine ⟨by decide, rfl, by decide, ?_⟩
  have h := (generateUnit_sound_fanout c8resp [] false (fun i _ => i) (fun _ => []) []
    [str "s1.mp3", str "s2.mp3"] (by decide) rfl (by decide)
    ⟨str "dataA", str "audio/mp3"⟩).1
  simpa using h

/-- C9 counterexample: with the model returning `9Lives` the rename handler
sets the Mod's name to `9Lives` — a name violating the folder-safe pattern
(it neither starts with an uppercase letter nor is snake_case) — instead of
rejecting the rename and retaining the existing name. -/
def c9mod : Mod := ⟨str "MyRustedMod", []⟩

theorem handleUpdateModName_claim_false :
    handleUpdateModName c9mod (str "9Lives") = { c9mod with name := str "9Lives" } ∧
    folderSafe (str "9Lives") = false ∧
    str "9Lives" ≠ c9mod.name := by
  refine ⟨rfl, by decide, by decide⟩

/-- C9 (amended): the rename path never rejects a model-provided name: it
sanitizes it by deleting every character outside `[a-zA-Z0-9_]` and applies
the result unconditionally (leaving the unit list untouched).  The applied
name therefore consists only of identifier characters, but it is not
checked against the folder-safe pattern and the previous name is not
retained. -/
theorem handleUpdateModName_sanitizes_and_applies (mod : Mod) (modelText : Str) :
    (handleUpdateModName mod modelText).name = (trim modelText).filter isIdentChar ∧
    ((handleUpdateModName mod modelText).name.all isIdentChar) = true ∧
    (handleUpdateModName mod modelText).units = mod.units := by
  refine ⟨rfl, ?_, rfl⟩
  rw [List.all_eq_true]
  intro c hc
  exact (List.mem_filter.mp hc).2

/-- C10: for every accepted create-from-image response, the produced unit
carries exactly one image, named `unitName + ".png"`, whose payload is the
caller-supplied image wrapped as a data URL, and no sounds — the
image-from-image path synthesizes nothing. -/
theorem generateUnitFromImage_exact_image (resp : ImageGenResponse)
    (base64 mime : Str) (autoFix : Bool) (correct : Str → List Str → Str)
    (now : Str) (u : GeneratedUnit)
    (h : generateUnitFromImage resp base64 mime autoFix correct now = .ok u) :
    u.images = [{ name := u.unitName ++ str ".png",
                  dataUrl := str "data:" ++ mime ++ str ";base64," ++ base64 }] ∧
    u.sounds = none := by
  unfold generateUnitFromImage at h
  split at h
  · exact absurd h (by simp)
  · dsimp only at h
    injection h with h
    subst h
    exact ⟨rfl, rfl⟩

def c10resp : ImageGenResponse := ⟨some (str "a"), some (str "x")⟩

def c10unit : GeneratedUnit :=
  ⟨str "a", str "a", ⟨str "a.ini", str "x"⟩,
    [⟨str "a.png", str "data:m;base64,imgdata"⟩], none⟩

theorem generateUnitFromImage_exact_image_witness :
    generateUnitFromImage c10resp (str "imgdata") (str "m") false
      (fun i _ => i) [] = .ok c10unit ∧
    c10unit.images = [{ name := c10unit.unitName ++ str ".png",
                        dataUrl := str "data:" ++ str "m" ++ str ";base64," ++ str "imgdata" }] ∧
    c10unit.sounds = none :=
  ⟨rfl,
    generateUnitFromImage_exact_image c10resp (str "imgdata") (str "m") false
      (fun i _ => i) [] c10unit rfl⟩
end RWAC
